import Mathlib

/-!
Shallow embedding of the concurrency core of the runtime:
`Channel` (src/machine/builtin/channel.cpp), `FiberStacks`
(src/machine/fiber_stack.cpp), `Fiber` (src/machine/builtin/fiber.cpp),
`VariableScope` (src/machine/builtin/variable_scope.cpp), `Thread::join`
(src/machine/builtin/thread.cpp) and `ImmixMarker`
(src/machine/memory/immix_marker.cpp), together with theorems settling the
specification claims about them.

Machine values are modelled abstractly: a Ruby object that may be `nil` is an
`Option Nat` (`none` = `cNil`, `some v` = a non-nil payload).
-/

namespace Rubinius

/-! ## Channel (src/machine/builtin/channel.cpp)

A channel holds a semaphore (permit) counter and a FIFO `List` of queued
entries.  Queue entries are `Option Nat`: `none` entries are the `cNil`
placeholders appended by `send` when it materializes outstanding permits;
`some v` entries are real values. -/

structure Channel where
  semaphoreCount : Nat
  queue : List (Option Nat)
  deriving Repr, DecidableEq

/-- `Channel::create`: `semaphore_count_ = 0`, empty value list. -/
def Channel.create : Channel := ⟨0, []⟩

/-- `Channel::send` (channel.cpp lines 38-63): a `nil` argument increments the
permit counter; a non-nil argument first appends `semaphore_count_` many `cNil`
entries to the list (zeroing the counter) and then appends the value. -/
def Channel.send (c : Channel) (val : Option Nat) : Channel :=
  match val with
  | none => { c with semaphoreCount := c.semaphoreCount + 1 }
  | some v =>
      { semaphoreCount := 0
        queue := c.queue ++ List.replicate c.semaphoreCount none ++ [some v] }

/-- `Channel::try_receive` (channel.cpp lines 65-78): if the permit counter is
positive, decrement it and return `cNil`; else if the list is empty return
`cNil`; else shift and return the front entry. -/
def Channel.tryReceive (c : Channel) : Option Nat × Channel :=
  if 0 < c.semaphoreCount then
    (none, { c with semaphoreCount := c.semaphoreCount - 1 })
  else
    match c.queue with
    | [] => (none, c)
    | e :: rest => (e, { c with queue := rest })

/-- Send a whole list of arguments in order. -/
def Channel.sendAll (c : Channel) : List (Option Nat) → Channel
  | [] => c
  | v :: vs => (c.send v).sendAll vs

/-- Perform `n` successive `try_receive` calls, collecting the observed
results in order. -/
def Channel.receiveN (c : Channel) : Nat → List (Option Nat) × Channel
  | 0 => ([], c)
  | n + 1 =>
      let (v, c') := c.tryReceive
      let (vs, c'') := c'.receiveN n
      (v :: vs, c'')

/-! ## FiberStacks (src/machine/fiber_stack.cpp)

A `FiberStack` is one raw stack region: a size and a reference count.
`FiberStacks` is the per-thread pool with its configured maximum count. -/

structure FiberStack where
  size : Nat
  refs : Nat
  deriving Repr, DecidableEq

/-- Modelled from the spec: `FiberStack::unused_p` (declared in the absent
fiber_stack.hpp header) — "a region with zero outstanding references becomes
eligible for reuse", so a stack is unused exactly when its reference count is
zero. -/
def FiberStack.unusedP (s : FiberStack) : Bool := s.refs == 0

structure FiberStacks where
  maxStacks : Nat
  stacks_ : List FiberStack
  deriving Repr, DecidableEq

/-- The first loop of `FiberStacks::allocate` (fiber_stack.cpp lines 115-123):
index of the first stack that is unused and at least `stackSize` big. -/
def findUnused (l : List FiberStack) (stackSize : Nat) : Option Nat :=
  match l with
  | [] => none
  | s :: rest =>
      if s.unusedP && decide (stackSize ≤ s.size) then some 0
      else (findUnused rest stackSize).map (· + 1)

/-- The eviction loop of `FiberStacks::allocate` (fiber_stack.cpp lines
133-143): starting from no candidate, take each stack whose reference count is
strictly below the current candidate's, yielding the first stack of minimal
reference count. -/
def minRefGo : List FiberStack → Nat → Option (Nat × Nat) → Option (Nat × Nat)
  | [], _, best => best
  | s :: rest, i, best =>
      minRefGo rest (i + 1)
        (match best with
         | none => some (i, s.refs)
         | some (bi, br) => if s.refs < br then some (i, s.refs) else some (bi, br))

def minRefIdx (l : List FiberStack) : Option Nat :=
  (minRefGo l 0 none).map Prod.fst

/-- Bump the reference count of stack `i` (`FiberStack::inc_ref`). -/
def incRefAt (l : List FiberStack) (i : Nat) : List FiberStack :=
  l.modify (fun s => { s with refs := s.refs + 1 }) i

/-- `FiberStacks::allocate` (fiber_stack.cpp lines 114-150).  Returns the
index of the leased stack together with the updated pool; `none` models the
`assert(stack)` abort reached when the pool is empty and already at its
maximum (no stack exists and none may be allocated). -/
def FiberStacks.allocate (p : FiberStacks) (stackSize : Nat) :
    Option (Nat × FiberStacks) :=
  match findUnused p.stacks_ stackSize with
  | some i => some (i, { p with stacks_ := incRefAt p.stacks_ i })
  | none =>
      if p.stacks_.length < p.maxStacks then
        some (p.stacks_.length,
          { p with stacks_ := p.stacks_ ++ [⟨stackSize, 1⟩] })
      else
        match minRefIdx p.stacks_ with
        | some i => some (i, { p with stacks_ := incRefAt p.stacks_ i })
        | none => none

/-! ## Fiber (src/machine/builtin/fiber.cpp)

Fibers are identified by numbers; native threads (VMs) likewise.  A fiber's
`data_` (its CoroutineContext / FiberData) is `none` until lazily allocated.
-/

inductive FiberStatus where
  | created
  | running
  | sleeping
  | dead
  deriving Repr, DecidableEq

/-- Modelled from the spec: `FiberData` (fiber_data.hpp is absent) — the
CoroutineContext "tracks liveness" (`dead_p`) and carries an "owning native
thread id" (`thread()`, null until bound). -/
structure FiberData where
  dead : Bool
  thread : Option Nat
  deriving Repr, DecidableEq

structure Fiber where
  status : FiberStatus
  root : Bool
  /-- The `prev_` link: the fiber id awaiting this fiber's return, nil when
  the fiber is not suspended awaiting a resumer. -/
  prev : Option Nat
  /-- The pending `value_` array (arguments handed across the switch). -/
  value : List Nat
  data : Option FiberData
  deriving Repr, DecidableEq

/-- The ambient per-thread context of a fiber call: the calling VM's id, the
thread's root fiber id and the currently running fiber's id. -/
structure ThreadCtx where
  vmId : Nat
  rootId : Nat
  curId : Nat
  deriving Repr, DecidableEq

inductive FiberError where
  | deadFiber
  | doubleResume
  | crossThread
  | rootYield
  deriving Repr, DecidableEq

/-- Modelled from the spec: `VM::new_fiber_data` (vm.hpp is absent) — a fresh
CoroutineContext is live and bound to the creating native thread. -/
def newFiberData (vmId : Nat) : FiberData := ⟨false, some vmId⟩

/-- The lazy `if(!data_) data_ = state->vm()->new_fiber_data();` prologue
shared by `Fiber::resume` and `Fiber::transfer`. -/
def Fiber.ensureData (f : Fiber) (vmId : Nat) : Fiber :=
  match f.data with
  | none => { f with data := some (newFiberData vmId) }
  | some _ => f

/-- The dead-fiber test `status_ == Fiber::eDead || data_->dead_p()` (after
`ensureData`, so `data` is present). -/
def Fiber.deadP (f : Fiber) : Bool :=
  f.status == .dead || (match f.data with | some d => d.dead | none => false)

/-- The cross-thread test `data_->thread() && data_->thread() != state->vm()`. -/
def Fiber.crossThreadP (f : Fiber) (vmId : Nat) : Bool :=
  match f.data with
  | some d => d.thread.isSome && d.thread != some vmId
  | none => false

/-- `Fiber::resume` (fiber.cpp lines 122-150, up to the context switch).
Returns the updated target fiber and the updated current fiber, or the error
raised.  Effects on success: target's `value_` := args, target's `prev_` :=
the current fiber, current fiber sleeps, target runs. -/
def Fiber.resume (ctx : ThreadCtx) (cur target : Fiber) (args : List Nat) :
    Except FiberError (Fiber × Fiber) :=
  let t := target.ensureData ctx.vmId
  if t.deadP then .error .deadFiber
  else if t.prev.isSome then .error .doubleResume
  else if t.crossThreadP ctx.vmId then .error .crossThread
  else .ok
    ({ t with value := args, prev := some ctx.curId, status := .running },
     { cur with status := .sleeping })

/-- `Fiber::transfer` (fiber.cpp lines 178-205, up to the context switch).
Same shape as `resume` but with target's `prev_` set to the thread's root
fiber. -/
def Fiber.transfer (ctx : ThreadCtx) (cur target : Fiber) (args : List Nat) :
    Except FiberError (Fiber × Fiber) :=
  let t := target.ensureData ctx.vmId
  if t.deadP then .error .deadFiber
  else if t.crossThreadP ctx.vmId then .error .crossThread
  else .ok
    ({ t with value := args, prev := some ctx.rootId, status := .running },
     { cur with status := .sleeping })

/-- `Fiber::s_yield` (fiber.cpp lines 233-253, up to the context switch).
`cur` is the currently running fiber, `dest` the fiber its `prev_` link
denotes.  On a root fiber it raises; otherwise it clears `cur`'s `prev_`,
stores the arguments as `dest`'s pending value, puts `cur` to sleep and sets
`dest` running (`Fiber::sleep` / `Fiber::run` are modelled from the spec:
"marks current Sleeping, marks destination Running"; fiber.hpp is absent). -/
def Fiber.sYield (cur dest : Fiber) (args : List Nat) :
    Except FiberError (Fiber × Fiber) :=
  if cur.root then .error .rootYield
  else .ok
    ({ cur with prev := none, status := .sleeping },
     { dest with value := args, status := .running })

/-! ## VariableScope (src/machine/builtin/variable_scope.cpp)

Locals are `Option Nat` values (objects, possibly nil).  A non-isolated
scope's slots live in machine memory, modelled as a function `Int → Option
Nat`, at addresses `localsBase + pos` translated through the owning fiber's
current displacement; an isolated scope owns its `heapLocals` tuple. -/

/-- Modelled from the spec: `memory::AddressDisplacement` (memory/gc.hpp is
absent) — "the (offset, bounds) mapping used to translate a nominal
stack-relative address to its current physical location". -/
structure AddressDisplacement where
  offset : Int
  lowerBound : Int
  upperBound : Int
  deriving Repr, DecidableEq

/-- Modelled from the spec: translating a nominal address through the current
displacement adds the region's offset. -/
def AddressDisplacement.displace (d : AddressDisplacement) (addr : Int) : Int :=
  addr + d.offset

structure VariableScope where
  /-- The `CallFrame::cScopeLocked` bit of `flags_` (`locked_p()`). -/
  lockedFlag : Bool
  /-- `isolated_`. -/
  isolated : Bool
  /-- `number_of_locals_`. -/
  numberOfLocals : Nat
  /-- The nominal address held in `locals_`. -/
  localsBase : Int
  /-- `heap_locals_`. -/
  heapLocals : List (Option Nat)
  /-- `try_as<Fiber>(fiber_)` with live `data()`: the displacement of the
  owning fiber's stack region, `none` when the scope has no displaceable
  fiber stack. -/
  fiberDisplacement : Option AddressDisplacement
  deriving Repr, DecidableEq

/-- Machine memory holding stack-resident local slots. -/
def Mem : Type := Int → Option Nat

/-- The effective address of slot `pos`: `locals_` displaced through the
owning fiber's current displacement when one exists (`get_local(int pos)`,
variable_scope.cpp lines 169-181). -/
def VariableScope.slotAddr (s : VariableScope) (pos : Nat) : Int :=
  match s.fiberDisplacement with
  | some d => d.displace (s.localsBase + pos)
  | none => s.localsBase + pos

/-- The raw displaced-stack read `get_local(int pos)`. -/
def VariableScope.getLocalRaw (mem : Mem) (s : VariableScope) (pos : Nat) :
    Option Nat :=
  mem (s.slotAddr pos)

/-- `VariableScope::get_local_internal` (lines 152-158): heap tuple when
isolated, displaced stack slot otherwise.  The second component records
whether the displaced-stack translation path was consulted. -/
def VariableScope.getLocalInternal (mem : Mem) (s : VariableScope)
    (pos : Nat) : Option Nat × Bool :=
  if s.isolated then (s.heapLocals.getD pos none, false)
  else (s.getLocalRaw mem pos, true)

/-- The result of one local access: the value read, whether the scope's lock
was acquired for the access, and whether the displaced-stack path was
consulted. -/
structure ReadResult where
  value : Option Nat
  usedLock : Bool
  usedDisplacedPath : Bool
  deriving Repr, DecidableEq

/-- `VariableScope::get_local(STATE, int)` (lines 160-167): takes the lock
exactly when `locked_p()`, then reads via `get_local_internal`. -/
def VariableScope.getLocal (mem : Mem) (s : VariableScope) (pos : Nat) :
    ReadResult :=
  let (v, disp) := s.getLocalInternal mem pos
  ⟨v, s.lockedFlag, disp⟩

/-- `VariableScope::set_local_internal` (lines 120-126): write the heap tuple
when isolated, else the displaced stack slot.  Returns the updated scope, the
updated memory and whether the displaced-stack path was consulted. -/
def VariableScope.setLocalInternal (mem : Mem) (s : VariableScope) (pos : Nat)
    (v : Option Nat) : VariableScope × Mem × Bool :=
  if s.isolated then
    ({ s with heapLocals := s.heapLocals.set pos v }, mem, false)
  else
    (s, fun a => if a = s.slotAddr pos then v else mem a, true)

/-- `VariableScope::set_local(STATE, int, Object*)` (lines 128-135): takes the
lock exactly when `locked_p()`, then writes via `set_local_internal`.  The
last component records whether the lock was acquired. -/
def VariableScope.setLocal (mem : Mem) (s : VariableScope) (pos : Nat)
    (v : Option Nat) : VariableScope × Mem × Bool × Bool :=
  let (s', mem', disp) := s.setLocalInternal mem pos v
  (s', mem', disp, s.lockedFlag)

/-- `VariableScope::flush_to_heap_internal` (lines 191-209): a no-op when
already isolated; otherwise copies the raw `locals_[i]` slots into a fresh
heap tuple and sets `isolated_ = 1`.  (The copy reads `locals_` directly,
without the displacement translation, exactly as the source does.) -/
def VariableScope.flushToHeapInternal (mem : Mem) (s : VariableScope) :
    VariableScope :=
  if s.isolated then s
  else
    { s with
      heapLocals := (List.range s.numberOfLocals).map
        (fun i => mem (s.localsBase + i))
      isolated := true }

/-- `VariableScope::flush_to_heap` (lines 211-219): when `locked_p()`, runs
the promotion under the lock and then clears the `cScopeLocked` bit; else
just runs the promotion. -/
def VariableScope.flushToHeap (mem : Mem) (s : VariableScope) :
    VariableScope :=
  if s.lockedFlag then
    { s.flushToHeapInternal mem with lockedFlag := false }
  else
    s.flushToHeapInternal mem

/-- The ancestor walk of `VariableScope::set_locked` (lines 110-118): the
parent chain is the list of ancestor scopes, nearest first; the loop sets the
`cScopeLocked` bit on each of them in turn (the recursive
`parent->set_locked(state)` call re-locks that scope's own ancestors, with
the same net effect). -/
def setLockedChain : List VariableScope → List VariableScope
  | [] => []
  | p :: rest => { p with lockedFlag := true } :: setLockedChain rest

/-- `VariableScope::set_locked` on a scope together with its parent chain:
sets this scope's `cScopeLocked` bit and walks the chain locking every
ancestor. -/
def VariableScope.setLocked (s : VariableScope)
    (ancestors : List VariableScope) : VariableScope × List VariableScope :=
  ({ s with lockedFlag := true }, setLockedChain ancestors)

/-! ## Thread::join (src/machine/builtin/thread.cpp lines 521-552)

A thread is its VM binding (`vm()`, null once the zombie VM is discarded) and
its `alive` flag (cleared by `Thread::stopped()` under the join lock just
before the join condition is broadcast).  `join` takes the requested timeout
(`none` = nil = untimed wait) and an oracle `timedOut` telling whether the
timed condition wait ran out before the exit broadcast arrived. -/

structure ThreadRec where
  hasVM : Bool
  alive : Bool
  deriving Repr, DecidableEq

/-- The outcome of a join: the returned object (`none` models `nil`,
`some t` the thread handle `self`) and whether the caller blocked on the join
condition variable. -/
structure JoinOutcome where
  result : Option ThreadRec
  blocked : Bool
  deriving Repr, DecidableEq

/-- `Thread::join`: returns nil at once when the VM is gone; waits only while
`alive()` is true — untimed wait returns `self` after the exit broadcast,
timed wait returns nil when it times out and `self` otherwise; when the
target is already not alive it returns `self` without waiting. -/
def ThreadRec.join (t : ThreadRec) (timeout : Option Nat) (timedOut : Bool) :
    JoinOutcome :=
  if !t.hasVM then ⟨none, false⟩
  else if t.alive then
    match timeout with
    | none => ⟨some t, true⟩
    | some _ => if timedOut then ⟨none, true⟩ else ⟨some t, true⟩
  else ⟨some t, false⟩

/-! ## ImmixMarker (src/machine/memory/immix_marker.cpp) -/

/-- The collector state the marker touches: the mature-mark-in-progress
flag. -/
structure GCMemory where
  matureMarkInProgress : Bool
  deriving Repr, DecidableEq

/-- Modelled from the spec: `Memory::clear_mature_mark_in_progress`
(memory.hpp is absent) — clears the collector's mark-in-progress flag. -/
def clearMatureMarkInProgress (m : GCMemory) : GCMemory :=
  { m with matureMarkInProgress := false }

/-- One iteration of the `while(!thread_exit_)` loop of `ImmixMarker::run`
(immix_marker.cpp lines 66-108): the loop observes `thread_exit_` and breaks,
or escalates to a full collection (`collect_full_finish` / `restart`, which
may leave the flag set for the restarted cycle), or finds no work and
sleeps. -/
inductive MarkerStep where
  | exitThread
  | fullCollect (flagAfter : Bool)
  | sleepStep
  deriving Repr, DecidableEq

/-- The marker run loop over a finite schedule of iterations, stopping early
when `thread_exit_` is observed. -/
def markerRunLoop (m : GCMemory) : List MarkerStep → GCMemory
  | [] => m
  | step :: rest =>
      match step with
      | .exitThread => m
      | .fullCollect b => markerRunLoop { m with matureMarkInProgress := b } rest
      | .sleepStep => markerRunLoop m rest

/-- `ImmixMarker::run` (lines 63-111): the loop followed by the
unconditional `state->memory()->clear_mature_mark_in_progress()` on the
way out. -/
def ImmixMarker.run (m : GCMemory) (steps : List MarkerStep) : GCMemory :=
  clearMatureMarkInProgress (markerRunLoop m steps)

/-- `ImmixMarker::after_fork_child` (lines 44-50): cleanup, then
`clear_mature_mark_in_progress`. -/
def ImmixMarker.afterForkChild (m : GCMemory) : GCMemory :=
  clearMatureMarkInProgress m

/-! ## Theorems -/

/-- Sending materializes entries so that the queue followed by the
still-outstanding permits always spells out the original send sequence:
permits are drained into `cNil` placeholders in issue order whenever a value
arrives. -/
lemma sendAll_queue_invariant (L : List (Option Nat)) :
    ∀ c : Channel,
      (c.sendAll L).queue ++
          List.replicate (c.sendAll L).semaphoreCount none =
        c.queue ++ List.replicate c.semaphoreCount none ++ L := by
  induction L with
  | nil => intro c; simp [Channel.sendAll]
  | cons v vs ih =>
      intro c
      cases v with
      | none =>
          simp only [Channel.sendAll, Channel.send]
          rw [ih]
          simp [List.replicate_succ']
      | some x =>
          simp only [Channel.sendAll, Channel.send]
          rw [ih]
          simp

/-- With no permits outstanding, receives pop the queue entries in order. -/
lemma receiveN_queue (c : Channel) (hs : c.semaphoreCount = 0) :
    (Channel.receiveN c c.queue.length).1 = c.queue := by
  obtain ⟨s, q⟩ := c
  replace hs : s = 0 := hs
  subst hs
  induction q with
  | nil => simp [Channel.receiveN]
  | cons e rest ih =>
      simp [Channel.receiveN, Channel.tryReceive, ih]

/-- C1, counterexample.  `send(5); send(nil)` then two receives observe
`nil, 5`: the permit issued *after* the value `5` is consumed first, so
receivers do not observe values in the order they were sent. -/
theorem channel_fifo_counterexample :
    (Channel.receiveN (Channel.sendAll Channel.create [some 5, none]) 2).1 =
        [none, some 5] ∧
      [none, some 5] ≠ ([some 5, none] : List (Option Nat)) := by
  decide

/-- C1 (amended): provided no permits are outstanding once receiving begins
(every permit was followed by some later value send), receivers observe the
sends in exactly the order they were issued, permits surfacing as queued
no-value entries in issue order; outstanding (never-materialized) permits are
instead consumed ahead of queued values. -/
theorem channel_fifo (L : List (Option Nat))
    (h : (Channel.sendAll Channel.create L).semaphoreCount = 0) :
    (Channel.receiveN (Channel.sendAll Channel.create L) L.length).1 = L := by
  have hq : (Channel.sendAll Channel.create L).queue = L := by
    have h2 := sendAll_queue_invariant L Channel.create
    rw [h] at h2
    simpa [Channel.create] using h2
  have hr := receiveN_queue (Channel.sendAll Channel.create L) h
  rw [hq] at hr
  exact hr

/-- C1 witness: the spec's own example `send(nil); send(nil); send(5)`
followed by three receives yields `nil, nil, 5` in that order. -/
theorem channel_fifo_witness :
    (Channel.sendAll Channel.create [none, none, some 5]).semaphoreCount = 0 ∧
      (Channel.receiveN (Channel.sendAll Channel.create [none, none, some 5])
          3).1 = [none, none, some 5] :=
  ⟨by decide, channel_fifo [none, none, some 5] (by decide)⟩

/-- C8: `ImmixMarker::run` clears the mature-mark-in-progress flag on every
exit of its run loop, and `after_fork_child` clears it on fork-child
reinitialization, whatever state the loop left the collector in. -/
theorem immix_marker_clears_mark (m : GCMemory) (steps : List MarkerStep) :
    (ImmixMarker.run m steps).matureMarkInProgress = false ∧
      (ImmixMarker.afterForkChild m).matureMarkInProgress = false :=
  ⟨rfl, rfl⟩

/-- C5: `flush_to_heap` is idempotent after its first call — a second call
leaves the scope (hence every externally observable local) unchanged — the
scope is isolated from the first call on, and post-flush `get_local` /
`set_local` accesses never consult the displaced-stack translation path. -/
theorem flush_to_heap_idempotent (mem : Mem) (s : VariableScope) :
    VariableScope.flushToHeap mem (VariableScope.flushToHeap mem s) =
        VariableScope.flushToHeap mem s ∧
      (VariableScope.flushToHeap mem s).isolated = true ∧
      (∀ pos, (VariableScope.getLocal mem (VariableScope.flushToHeap mem s)
          pos).usedDisplacedPath = false) ∧
      (∀ pos v, (VariableScope.setLocal mem (VariableScope.flushToHeap mem s)
          pos v).2.2.1 = false) := by
  obtain ⟨lk, iso, n, base, hp, fd⟩ := s
  cases lk <;> cases iso <;>
    simp [VariableScope.flushToHeap, VariableScope.flushToHeapInternal,
      VariableScope.getLocal, VariableScope.getLocalInternal,
      VariableScope.setLocal, VariableScope.setLocalInternal]

/-- C10: on a scope that is locked and not yet isolated, `flush_to_heap`
clears the `cScopeLocked` bit as a side effect of the promotion, so
subsequent `get_local` / `set_local` accesses no longer acquire the scope's
lock even though `set_locked` was never explicitly revoked. -/
theorem flush_to_heap_clears_lock (mem : Mem) (s : VariableScope)
    (hl : s.lockedFlag = true) (hi : s.isolated = false) :
    (VariableScope.flushToHeap mem s).lockedFlag = false ∧
      (∀ pos, (VariableScope.getLocal mem (VariableScope.flushToHeap mem s)
          pos).usedLock = false) ∧
      (∀ pos v, (VariableScope.setLocal mem (VariableScope.flushToHeap mem s)
          pos v).2.2.2 = false) := by
  obtain ⟨lk, iso, n, base, hp, fd⟩ := s
  replace hl : lk = true := hl
  replace hi : iso = false := hi
  subst hl; subst hi
  simp [VariableScope.flushToHeap, VariableScope.flushToHeapInternal,
    VariableScope.getLocal, VariableScope.getLocalInternal,
    VariableScope.setLocal, VariableScope.setLocalInternal]

/-- C10 witness at a concrete locked, non-isolated scope. -/
theorem flush_to_heap_clears_lock_witness :
    (VariableScope.lockedFlag ⟨true, false, 1, 0, [], none⟩ = true) ∧
      (VariableScope.flushToHeap (fun _ => none)
          ⟨true, false, 1, 0, [], none⟩).lockedFlag = false :=
  ⟨rfl, (flush_to_heap_clears_lock (fun _ => none)
    ⟨true, false, 1, 0, [], none⟩ rfl rfl).1⟩

/-- Every scope in the chain walked by `set_locked` ends up locked. -/
lemma setLockedChain_locked (l : List VariableScope) :
    ∀ a ∈ setLockedChain l, a.lockedFlag = true := by
  induction l with
  | nil => intro a ha; cases ha
  | cons p rest ih =>
      intro a ha
      cases ha with
      | head => rfl
      | tail _ hm => exact ih a hm

/-- C6: `set_locked` marks the scope and, transitively, every ancestor in its
parent chain as lock-protected, and once a scope's `cScopeLocked` bit is set
every `get_local` / `set_local` on it acquires the scope's lock for the
access. -/
theorem set_locked_propagates (s : VariableScope)
    (ancestors : List VariableScope) :
    (s.setLocked ancestors).1.lockedFlag = true ∧
      (∀ a ∈ (s.setLocked ancestors).2, a.lockedFlag = true) ∧
      (∀ t : VariableScope, t.lockedFlag = true →
        ∀ mem pos v,
          (VariableScope.getLocal mem t pos).usedLock = true ∧
            (VariableScope.setLocal mem t pos v).2.2.2 = true) := by
  refine ⟨rfl, setLockedChain_locked ancestors, ?_⟩
  intro t ht mem pos v
  exact ⟨by simp [VariableScope.getLocal, ht],
    by simp [VariableScope.setLocal, ht]⟩

/-- C6 witness: locking a concrete leaf scope with one concrete ancestor
locks both, and a locked scope's reads go through the lock. -/
theorem set_locked_propagates_witness :
    (VariableScope.setLocked ⟨false, false, 1, 0, [], none⟩
        [⟨false, false, 1, 4, [], none⟩]).1.lockedFlag = true ∧
      ({ lockedFlag := true, isolated := false, numberOfLocals := 1,
          localsBase := 4, heapLocals := [], fiberDisplacement := none :
          VariableScope } ∈
        (VariableScope.setLocked ⟨false, false, 1, 0, [], none⟩
          [⟨false, false, 1, 4, [], none⟩]).2) ∧
      (VariableScope.getLocal (fun _ => none)
        ⟨true, false, 1, 4, [], none⟩ 0).usedLock = true := by
  refine ⟨(set_locked_propagates ⟨false, false, 1, 0, [], none⟩
      [⟨false, false, 1, 4, [], none⟩]).1, ?_, ?_⟩
  · decide
  · exact ((set_locked_propagates ⟨false, false, 1, 0, [], none⟩
      [⟨false, false, 1, 4, [], none⟩]).2.2
        ⟨true, false, 1, 4, [], none⟩ rfl (fun _ => none) 0 none).1

/-- C7, counterexample: a thread that is already not alive but whose VM
binding has been discarded — `join` returns nil immediately, not the thread
handle, so "join on an already-not-alive thread returns the thread handle"
fails as stated. -/
theorem join_counterexample :
    ThreadRec.join ⟨false, false⟩ none false = ⟨none, false⟩ ∧
      (none : Option ThreadRec) ≠ some ⟨false, false⟩ := by
  decide

/-- C7 (amended): `join` on an already-not-alive thread returns immediately —
with the thread handle when the thread's VM binding still exists, and with
nil when the VM has already been discarded; `join(nil)` on a live thread
blocks until the target is not alive and returns the handle; a timed join
whose deadline elapses first returns the distinguished nil result. -/
theorem join_spec (t : ThreadRec) (tmo : Option Nat) (td : Bool) :
    (t.hasVM = false → t.join tmo td = ⟨none, false⟩) ∧
      (t.hasVM = true → t.alive = false → t.join tmo td = ⟨some t, false⟩) ∧
      (t.hasVM = true → t.alive = true → t.join none td = ⟨some t, true⟩) ∧
      (t.hasVM = true → t.alive = true → ∀ d,
        t.join (some d) true = ⟨none, true⟩ ∧
          t.join (some d) false = ⟨some t, true⟩) := by
  obtain ⟨hv, al⟩ := t
  cases hv <;> cases al <;> cases td <;> cases tmo <;>
    simp [ThreadRec.join]

/-- C7 witness: a finished thread with its VM still bound joins immediately
with the handle; a live thread with a nil timeout blocks and returns the
handle; a timed-out join returns nil. -/
theorem join_spec_witness :
    ThreadRec.join ⟨true, false⟩ none false = ⟨some ⟨true, false⟩, false⟩ ∧
      ThreadRec.join ⟨true, true⟩ none false = ⟨some ⟨true, true⟩, true⟩ ∧
      ThreadRec.join ⟨true, true⟩ (some 3) true = ⟨none, true⟩ :=
  ⟨(join_spec ⟨true, false⟩ none false).2.1 rfl rfl,
   (join_spec ⟨true, true⟩ none false).2.2.1 rfl rfl,
   ((join_spec ⟨true, true⟩ (some 3) true).2.2.2 rfl rfl 3).1⟩

/-- The lazy data prologue never changes the `prev_` link. -/
lemma ensureData_prev (f : Fiber) (vmId : Nat) :
    (f.ensureData vmId).prev = f.prev := by
  cases hd : f.data <;> simp [Fiber.ensureData, hd]

/-- C4: `resume` fails with the dead-fiber error when the target's status is
Dead or its context is dead; with the double-resume error when (not dead) the
target's `prev_` is already non-null; and with the cross-thread error when
(not dead, `prev_` null) the target's context is bound to another native
thread.  Each failure is the raised error result, never silently dropped. -/
theorem resume_preconditions (ctx : ThreadCtx) (cur target : Fiber)
    (args : List Nat) :
    ((target.ensureData ctx.vmId).deadP = true →
        Fiber.resume ctx cur target args = .error .deadFiber) ∧
      ((target.ensureData ctx.vmId).deadP = false → target.prev ≠ none →
        Fiber.resume ctx cur target args = .error .doubleResume) ∧
      ((target.ensureData ctx.vmId).deadP = false → target.prev = none →
        (target.ensureData ctx.vmId).crossThreadP ctx.vmId = true →
        Fiber.resume ctx cur target args = .error .crossThread) := by
  refine ⟨?_, ?_, ?_⟩
  · intro hd
    simp [Fiber.resume, hd]
  · intro hd hp
    have hs : (target.ensureData ctx.vmId).prev.isSome = true := by
      rw [ensureData_prev]
      exact Option.isSome_iff_ne_none.mpr hp
    simp [Fiber.resume, hd, hs]
  · intro hd hp hc
    have hs : (target.ensureData ctx.vmId).prev = none := by
      rw [ensureData_prev]; exact hp
    simp [Fiber.resume, hd, hs, hc]

/-- C4 witness: concrete dead-fiber, double-resume and cross-thread resumes
each raise the matching error (caller's VM is 1). -/
theorem resume_preconditions_witness :
    Fiber.resume ⟨1, 0, 2⟩ ⟨.running, true, none, [], some ⟨false, some 1⟩⟩
        ⟨.dead, false, none, [], some ⟨false, some 1⟩⟩ [] =
      .error .deadFiber ∧
    Fiber.resume ⟨1, 0, 2⟩ ⟨.running, true, none, [], some ⟨false, some 1⟩⟩
        ⟨.sleeping, false, some 7, [], some ⟨false, some 1⟩⟩ [] =
      .error .doubleResume ∧
    Fiber.resume ⟨1, 0, 2⟩ ⟨.running, true, none, [], some ⟨false, some 1⟩⟩
        ⟨.sleeping, false, none, [], some ⟨false, some 2⟩⟩ [] =
      .error .crossThread :=
  ⟨(resume_preconditions ⟨1, 0, 2⟩
      ⟨.running, true, none, [], some ⟨false, some 1⟩⟩
      ⟨.dead, false, none, [], some ⟨false, some 1⟩⟩ []).1 (by decide),
   (resume_preconditions ⟨1, 0, 2⟩
      ⟨.running, true, none, [], some ⟨false, some 1⟩⟩
      ⟨.sleeping, false, some 7, [], some ⟨false, some 1⟩⟩ []).2.1
      (by decide) (by decide),
   (resume_preconditions ⟨1, 0, 2⟩
      ⟨.running, true, none, [], some ⟨false, some 1⟩⟩
      ⟨.sleeping, false, none, [], some ⟨false, some 2⟩⟩ []).2.2
      (by decide) (by decide) (by decide)⟩

/-- C3, counterexample: a live, same-thread fiber whose `prev_` is already
non-null — `resume` raises the double-resume error but `transfer` succeeds,
so transfer does *not* have exactly the same preconditions as resume (it
performs no double-resume check). -/
theorem transfer_counterexample :
    Fiber.resume ⟨1, 0, 2⟩ ⟨.running, true, none, [], some ⟨false, some 1⟩⟩
        ⟨.sleeping, false, some 7, [], some ⟨false, some 1⟩⟩ [] =
      .error .doubleResume ∧
    Fiber.transfer ⟨1, 0, 2⟩ ⟨.running, true, none, [], some ⟨false, some 1⟩⟩
        ⟨.sleeping, false, some 7, [], some ⟨false, some 1⟩⟩ [] =
      .ok (⟨.running, false, some 0, [], some ⟨false, some 1⟩⟩,
           ⟨.sleeping, true, none, [], some ⟨false, some 1⟩⟩) :=
  ⟨rfl, rfl⟩

/-- C3 (amended): `transfer` shares `resume`'s dead-fiber and cross-thread
preconditions but performs no double-resume check — the target's `prev_` is
ignored entirely — and on success the target's `prev_` is unconditionally set
to the thread's root fiber rather than the caller. -/
theorem transfer_spec (ctx : ThreadCtx) (cur target : Fiber)
    (args : List Nat) :
    (∀ p, Fiber.transfer ctx cur { target with prev := p } args =
        Fiber.transfer ctx cur { target with prev := none } args) ∧
      ((target.ensureData ctx.vmId).deadP = true →
        Fiber.transfer ctx cur target args = .error .deadFiber ∧
          Fiber.resume ctx cur target args = .error .deadFiber) ∧
      ((target.ensureData ctx.vmId).deadP = false →
        (target.ensureData ctx.vmId).crossThreadP ctx.vmId = true →
        Fiber.transfer ctx cur target args = .error .crossThread) ∧
      ((target.ensureData ctx.vmId).deadP = false →
        (target.ensureData ctx.vmId).crossThreadP ctx.vmId = false →
        Fiber.transfer ctx cur target args =
            .ok ({ target.ensureData ctx.vmId with
                    value := args, prev := some ctx.rootId,
                    status := .running },
                 { cur with status := .sleeping })) := by
  refine ⟨?_, ?_, ?_, ?_⟩
  · intro p
    obtain ⟨st, rt, pv, vl, dt⟩ := target
    cases dt <;> rfl
  · intro hd
    exact ⟨by simp [Fiber.transfer, hd], by simp [Fiber.resume, hd]⟩
  · intro hd hc
    simp [Fiber.transfer, hd, hc]
  · intro hd hc
    simp [Fiber.transfer, hd, hc]

/-- C3 amended-claim witness: with caller VM 1, root fiber 0 — transferring
to a dead fiber and to a cross-thread fiber raise the matching errors, and
transfer to a live same-thread fiber ignores its `prev_` link. -/
theorem transfer_spec_witness :
    Fiber.transfer ⟨1, 0, 2⟩ ⟨.running, true, none, [], some ⟨false, some 1⟩⟩
        ⟨.dead, false, none, [], some ⟨false, some 1⟩⟩ [] =
      .error .deadFiber ∧
    Fiber.transfer ⟨1, 0, 2⟩ ⟨.running, true, none, [], some ⟨false, some 1⟩⟩
        ⟨.sleeping, false, none, [], some ⟨false, some 2⟩⟩ [] =
      .error .crossThread ∧
    Fiber.transfer ⟨1, 0, 2⟩ ⟨.running, true, none, [], some ⟨false, some 1⟩⟩
        ⟨.sleeping, false, some 7, [], some ⟨false, some 1⟩⟩ [] =
      Fiber.transfer ⟨1, 0, 2⟩ ⟨.running, true, none, [], some ⟨false, some 1⟩⟩
        ⟨.sleeping, false, none, [], some ⟨false, some 1⟩⟩ [] :=
  ⟨((transfer_spec ⟨1, 0, 2⟩
      ⟨.running, true, none, [], some ⟨false, some 1⟩⟩
      ⟨.dead, false, none, [], some ⟨false, some 1⟩⟩ []).2.1 (by decide)).1,
   (transfer_spec ⟨1, 0, 2⟩
      ⟨.running, true, none, [], some ⟨false, some 1⟩⟩
      ⟨.sleeping, false, none, [], some ⟨false, some 2⟩⟩ []).2.2.1
      (by decide) (by decide),
   (transfer_spec ⟨1, 0, 2⟩
      ⟨.running, true, none, [], some ⟨false, some 1⟩⟩
      ⟨.sleeping, false, some 7, [], some ⟨false, some 1⟩⟩ []).1 (some 7)⟩

/-- C9: `yield` from the thread's root fiber always raises the
root-fiber-yield error; from a non-root fiber it clears the current fiber's
`prev_`, stores the arguments as the destination's pending value, marks the
current fiber Sleeping and the destination Running, and hands control to the
destination. -/
theorem yield_spec (cur dest : Fiber) (args : List Nat) :
    (cur.root = true → Fiber.sYield cur dest args = .error .rootYield) ∧
      (cur.root = false → Fiber.sYield cur dest args =
        .ok ({ cur with prev := none, status := .sleeping },
             { dest with value := args, status := .running })) := by
  constructor <;> intro h <;> simp [Fiber.sYield, h]

/-- C9 witness: yielding from a concrete root fiber raises; yielding from a
concrete non-root fiber suspends it and runs its resumer. -/
theorem yield_spec_witness :
    Fiber.sYield ⟨.running, true, none, [], some ⟨false, some 1⟩⟩
        ⟨.sleeping, false, none, [], some ⟨false, some 1⟩⟩ [3] =
      .error .rootYield ∧
    Fiber.sYield ⟨.running, false, some 0, [], some ⟨false, some 1⟩⟩
        ⟨.sleeping, true, none, [], some ⟨false, some 1⟩⟩ [3] =
      .ok (⟨.sleeping, false, none, [], some ⟨false, some 1⟩⟩,
           ⟨.running, true, none, [3], some ⟨false, some 1⟩⟩) :=
  ⟨(yield_spec ⟨.running, true, none, [], some ⟨false, some 1⟩⟩
      ⟨.sleeping, false, none, [], some ⟨false, some 1⟩⟩ [3]).1 rfl,
   (yield_spec ⟨.running, false, some 0, [], some ⟨false, some 1⟩⟩
      ⟨.sleeping, true, none, [], some ⟨false, some 1⟩⟩ [3]).2 rfl⟩

/-- A hit in the first `allocate` loop really is an unused stack of
sufficient size. -/
lemma findUnused_spec (sz : Nat) :
    ∀ (l : List FiberStack) (i : Nat), findUnused l sz = some i →
      ∃ s, l.get? i = some s ∧ s.unusedP = true ∧ sz ≤ s.size := by
  intro l
  induction l with
  | nil => intro i h; simp [findUnused] at h
  | cons s rest ih =>
      intro i h
      by_cases hc : s.unusedP && decide (sz ≤ s.size)
      · rw [findUnused, if_pos hc] at h
        obtain ⟨h1, h2⟩ := Bool.and_eq_true_iff.mp hc
        cases h
        exact ⟨s, rfl, h1, of_decide_eq_true h2⟩
      · rw [findUnused, if_neg hc] at h
        obtain ⟨j, hj, rfl⟩ := Option.map_eq_some'.mp h
        obtain ⟨t, ht, hu, hs⟩ := ih j hj
        exact ⟨t, ht, hu, hs⟩

/-- The eviction fold never loses its candidate. -/
lemma minRefGo_isSome :
    ∀ (l : List FiberStack) (i : Nat) (b : Option (Nat × Nat)),
      b.isSome = true → (minRefGo l i b).isSome = true := by
  intro l
  induction l with
  | nil => intro i b hb; exact hb
  | cons s rest ih =>
      intro i b hb
      cases b with
      | none => simp at hb
      | some p =>
          obtain ⟨bi, br⟩ := p
          rw [minRefGo]
          by_cases hlt : s.refs < br

          · exact ih (i + 1) _ (by simp [hlt])
          · exact ih (i + 1) _ (by simp [hlt])

/-- The eviction fold yields a reference count no larger than any stack it
scanned or any candidate it started from, locating a stack of that count. -/
lemma minRefGo_min :
    ∀ (l : List FiberStack) (i : Nat) (best : Option (Nat × Nat))
      (ri rr : Nat), minRefGo l i best = some (ri, rr) →
      (∀ s ∈ l, rr ≤ s.refs) ∧
        (∀ bi br, best = some (bi, br) → rr ≤ br) ∧
        (best = some (ri, rr) ∨
          ∃ k s, l.get? k = some s ∧ s.refs = rr ∧ ri = i + k) := by
  intro l
  induction l with
  | nil =>
      intro i best ri rr h
      simp only [minRefGo] at h
      refine ⟨by simp, ?_, Or.inl h⟩
      intro bi br hb
      rw [hb] at h
      cases h
      exact le_refl rr
  | cons s rest ih =>
      intro i best ri rr h
      cases best with
      | none =>
          simp only [minRefGo] at h
          obtain ⟨h1, h2, h3⟩ := ih (i + 1) (some (i, s.refs)) ri rr h
          have hrs : rr ≤ s.refs := h2 i s.refs rfl
          refine ⟨?_, by simp, ?_⟩
          · intro t ht
            cases ht with
            | head => exact hrs
            | tail _ hm => exact h1 t hm
          · cases h3 with
            | inl he =>
                cases he
                exact Or.inr ⟨0, s, rfl, rfl, by simp⟩
            | inr he =>
                obtain ⟨k, t, hk, htr, hri⟩ := he
                exact Or.inr ⟨k + 1, t, hk, htr, by omega⟩
      | some p =>
          obtain ⟨bi, br⟩ := p
          simp only [minRefGo] at h
          by_cases hlt : s.refs < br
          · rw [if_pos hlt] at h
            obtain ⟨h1, h2, h3⟩ := ih (i + 1) (some (i, s.refs)) ri rr h
            have hrs : rr ≤ s.refs := h2 i s.refs rfl
            refine ⟨?_, ?_, ?_⟩
            · intro t ht
              cases ht with
              | head => exact hrs
              | tail _ hm => exact h1 t hm
            · intro bi' br' hb
              cases hb
              omega
            · cases h3 with
              | inl he =>
                  cases he
                  exact Or.inr ⟨0, s, rfl, rfl, by simp⟩
              | inr he =>
                  obtain ⟨k, t, hk, htr, hri⟩ := he
                  exact Or.inr ⟨k + 1, t, hk, htr, by omega⟩
          · rw [if_neg hlt] at h
            obtain ⟨h1, h2, h3⟩ := ih (i + 1) (some (bi, br)) ri rr h
            have hrb : rr ≤ br := h2 bi br rfl
            refine ⟨?_, ?_, ?_⟩
            · intro t ht
              cases ht with
              | head => omega
              | tail _ hm => exact h1 t hm
            · intro bi' br' hb
              cases hb
              exact hrb
            · cases h3 with
              | inl he =>
                  cases he
                  exact Or.inl rfl
              | inr he =>
                  obtain ⟨k, t, hk, htr, hri⟩ := he
                  exact Or.inr ⟨k + 1, t, hk, htr, by omega⟩

/-- On a non-empty pool the eviction pass returns the first stack of minimal
reference count. -/
lemma minRefIdx_spec (l : List FiberStack) (hne : l ≠ []) :
    ∃ i s, minRefIdx l = some i ∧ l.get? i = some s ∧
      ∀ t ∈ l, s.refs ≤ t.refs := by
  have hsome : (minRefGo l 0 none).isSome = true := by
    cases l with
    | nil => exact absurd rfl hne
    | cons s rest =>
        rw [minRefGo]
        exact minRefGo_isSome rest 1 (some (0, s.refs)) rfl
  obtain ⟨⟨ri, rr⟩, hgo⟩ := Option.isSome_iff_exists.mp hsome
  obtain ⟨h1, _, h3⟩ := minRefGo_min l 0 none ri rr hgo
  cases h3 with
  | inl he => cases he
  | inr he =>
      obtain ⟨k, s, hk, htr, hri⟩ := he
      refine ⟨ri, s, ?_, ?_, ?_⟩
      · rw [minRefIdx, hgo]; rfl
      · rw [hri]; simpa using hk
      · intro t ht
        rw [htr]
        exact h1 t ht

/-- C2, counterexample: a pool at its maximum of one region, whose single
stack has capacity 4 and is currently leased (refs 1).  A lease request for
size 8 succeeds by handing out that same stack: its capacity 4 is below the
requested 8 and it was not unused, refuting both "capacity ≥ requested size"
and "leases the currently-unused region". -/
theorem stackpool_counterexample :
    FiberStacks.allocate ⟨1, [⟨4, 1⟩]⟩ 8 = some (0, ⟨1, [⟨4, 2⟩]⟩) ∧
      ¬ 8 ≤ (4 : Nat) ∧ FiberStack.unusedP ⟨4, 1⟩ = false := by
  decide

/-- C2 (amended): `allocate` prefers the first existing unused region of
sufficient capacity; failing that, while the pool is below its configured
maximum it allocates a fresh region of exactly the requested size; at the
maximum it leases the region with the lowest reference count among *all*
regions — whether or not it is unused and regardless of its capacity — and
it never fails or blocks provided a region exists or may be created. -/
theorem allocate_spec (p : FiberStacks) (sz : Nat) :
    (∀ i, findUnused p.stacks_ sz = some i →
        p.allocate sz = some (i, { p with stacks_ := incRefAt p.stacks_ i }) ∧
          ∃ s, p.stacks_.get? i = some s ∧ s.unusedP = true ∧ sz ≤ s.size) ∧
      (findUnused p.stacks_ sz = none → p.stacks_.length < p.maxStacks →
        p.allocate sz = some (p.stacks_.length,
          { p with stacks_ := p.stacks_ ++ [⟨sz, 1⟩] })) ∧
      (findUnused p.stacks_ sz = none → ¬ p.stacks_.length < p.maxStacks →
        p.stacks_ ≠ [] →
        ∃ i s, p.allocate sz =
            some (i, { p with stacks_ := incRefAt p.stacks_ i }) ∧
          p.stacks_.get? i = some s ∧ ∀ t ∈ p.stacks_, s.refs ≤ t.refs) ∧
      (p.stacks_ ≠ [] ∨ p.stacks_.length < p.maxStacks →
        (p.allocate sz).isSome = true) := by
  refine ⟨?_, ?_, ?_, ?_⟩
  · intro i hf
    exact ⟨by simp [FiberStacks.allocate, hf], findUnused_spec sz p.stacks_ i hf⟩
  · intro hf hlen
    simp [FiberStacks.allocate, hf, hlen]
  · intro hf hlen hne
    obtain ⟨i, s, hmi, hget, hmin⟩ := minRefIdx_spec p.stacks_ hne
    exact ⟨i, s, by simp [FiberStacks.allocate, hf, hlen, hmi], hget, hmin⟩
  · intro hor
    cases hfu : findUnused p.stacks_ sz with
    | some i => simp [FiberStacks.allocate, hfu]
    | none =>
        by_cases hlen : p.stacks_.length < p.maxStacks
        · simp [FiberStacks.allocate, hfu, hlen]
        · have hne : p.stacks_ ≠ [] := by
            cases hor with
            | inl h => exact h
            | inr h => exact absurd h hlen
          obtain ⟨i, s, hmi, _, _⟩ := minRefIdx_spec p.stacks_ hne
          simp [FiberStacks.allocate, hfu, hlen, hmi]

/-- C2 amended-claim witness: an unused sufficient region is reused in
place; with no such region and room to grow, a fresh region of the requested
size appears; at the maximum, the lease still succeeds. -/
theorem allocate_spec_witness :
    FiberStacks.allocate ⟨2, [⟨8, 0⟩]⟩ 4 = some (0, ⟨2, [⟨8, 1⟩]⟩) ∧
      FiberStacks.allocate ⟨2, [⟨4, 1⟩]⟩ 8 =
        some (1, ⟨2, [⟨4, 1⟩, ⟨8, 1⟩]⟩) ∧
      (FiberStacks.allocate ⟨1, [⟨4, 1⟩]⟩ 8).isSome = true :=
  ⟨((allocate_spec ⟨2, [⟨8, 0⟩]⟩ 4).1 0 (by decide)).1,
   (allocate_spec ⟨2, [⟨4, 1⟩]⟩ 8).2.1 (by decide) (by decide),
   (allocate_spec ⟨1, [⟨4, 1⟩]⟩ 8).2.2.2 (Or.inl (by decide))⟩

end Rubinius
